import Mathlib

/-!
Shallow embedding of `funcion_anonimizacion_bonificaciones.py` (the
`procesar_bonificaciones` pipeline and its helpers).

Cell values of the tabular data are modelled by `Value`: strings, integers,
and the missing value (pandas `NaN`).  A data frame is an ordered list of
named columns, each column an ordered list of cells.  A mapping table
(Python `dict` from real value to anonymized token) is an insertion-ordered
association list, and the mapping store (`mapeos_globales`) is an
insertion-ordered association list from group name to mapping table.
-/

namespace Bonif

/-- A cell value: a string, an integer, or the missing value (pandas NaN). -/
inductive Value where
  | vstr (s : String)
  | vint (n : Int)
  | nan
deriving DecidableEq, Repr

/-- Python `str(valor)`: identity on strings, decimal rendering of integers,
`"nan"` for the missing value. -/
def pyStr : Value → String
  | .vstr s => s
  | .vint n => toString n
  | .nan => "nan"

/-- UTF-8 encoding of one character (Python `str.encode()` is UTF-8). -/
def utf8EncodeChar (c : Char) : List Nat :=
  let n := c.toNat
  if n < 0x80 then [n]
  else if n < 0x800 then
    [0xC0 + n / 0x40, 0x80 + n % 0x40]
  else if n < 0x10000 then
    [0xE0 + n / 0x1000, 0x80 + n / 0x40 % 0x40, 0x80 + n % 0x40]
  else
    [0xF0 + n / 0x40000, 0x80 + n / 0x1000 % 0x40, 0x80 + n / 0x40 % 0x40,
     0x80 + n % 0x40]

/-- UTF-8 encoding of a string as a byte list. -/
def utf8Encode (s : String) : List Nat :=
  s.data.flatMap utf8EncodeChar

/-! ### SHA-256, executable over `Nat` with explicit reduction mod `2^32` -/

/-- Combine the low `k` bits of three naturals bit by bit with `f`
(structural recursion on the bit count, so it reduces in the kernel). -/
def bitZip3 (f : Nat → Nat → Nat → Nat) : Nat → Nat → Nat → Nat → Nat
  | 0, _, _, _ => 0
  | k + 1, a, b, c =>
      f (a % 2) (b % 2) (c % 2) + 2 * bitZip3 f k (a / 2) (b / 2) (c / 2)

/-- Bitwise exclusive or on 32-bit words. -/
def xor32 (a b : Nat) : Nat :=
  bitZip3 (fun x y _ => (x + y) % 2) 32 a b 0

/-- SHA-256 `Ch(e,f,g)`: for each bit, `f` where `e` is set, else `g`. -/
def ch32 (e f g : Nat) : Nat :=
  bitZip3 (fun x y z => if x = 1 then y else z) 32 e f g

/-- SHA-256 `Maj(a,b,c)`: bitwise majority. -/
def maj32 (a b c : Nat) : Nat :=
  bitZip3 (fun x y z => if 2 ≤ x + y + z then 1 else 0) 32 a b c

/-- Rotate a 32-bit word right by `r` bits. -/
def rotr32 (r w : Nat) : Nat :=
  w / 2 ^ r + w % 2 ^ r * 2 ^ (32 - r)

/-- SHA-256 big sigma 0. -/
def bsig0 (x : Nat) : Nat := xor32 (xor32 (rotr32 2 x) (rotr32 13 x)) (rotr32 22 x)

/-- SHA-256 big sigma 1. -/
def bsig1 (x : Nat) : Nat := xor32 (xor32 (rotr32 6 x) (rotr32 11 x)) (rotr32 25 x)

/-- SHA-256 small sigma 0. -/
def ssig0 (x : Nat) : Nat := xor32 (xor32 (rotr32 7 x) (rotr32 18 x)) (x / 2 ^ 3)

/-- SHA-256 small sigma 1. -/
def ssig1 (x : Nat) : Nat := xor32 (xor32 (rotr32 17 x) (rotr32 19 x)) (x / 2 ^ 10)

/-- The 64 SHA-256 round constants (FIPS 180-4), as decimal naturals. -/
def K256 : List Nat :=
  [1116352408, 1899447441, 3049323471, 3921009573, 961987163,
   1508970993, 2453635748, 2870763221, 3624381080, 310598401,
   607225278, 1426881987, 1925078388, 2162078206, 2614888103,
   3248222580, 3835390401, 4022224774, 264347078, 604807628,
   770255983, 1249150122, 1555081692, 1996064986, 2554220882,
   2821834349, 2952996808, 3210313671, 3336571891, 3584528711,
   113926993, 338241895, 666307205, 773529912, 1294757372,
   1396182291, 1695183700, 1986661051, 2177026350, 2456956037,
   2730485921, 2820302411, 3259730800, 3345764771, 3516065817,
   3600352804, 4094571909, 275423344, 430227734, 506948616,
   659060556, 883997877, 958139571, 1322822218, 1537002063,
   1747873779, 1955562222, 2024104815, 2227730452, 2361852424,
   2428436474, 2756734187, 3204031479, 3329325298]

/-- The eight 32-bit words of the SHA-256 working state. -/
structure Hash8 where
  a : Nat
  b : Nat
  c : Nat
  d : Nat
  e : Nat
  f : Nat
  g : Nat
  h : Nat
deriving DecidableEq, Repr

/-- SHA-256 initial hash value (FIPS 180-4), as decimal naturals. -/
def sha256init : Hash8 :=
  ⟨1779033703, 3144134277, 1013904242, 2773480762,
   1359893119, 2600822924, 528734635, 1541459225⟩

/-- The 8-byte big-endian encoding of `n` (used for the length suffix). -/
def beBytes8 (n : Nat) : List Nat :=
  (List.range 8).map fun i => n / 2 ^ (8 * (7 - i)) % 256

/-- SHA-256 padding: append `0x80`, zero bytes to 56 mod 64, then the
bit length as 8 big-endian bytes. -/
def sha256pad (msg : List Nat) : List Nat :=
  msg ++ [0x80] ++ List.replicate ((119 - msg.length % 64) % 64) 0
      ++ beBytes8 (msg.length * 8)

/-- Word `j` (big-endian) of a 64-byte block. -/
def blockWord (block : List Nat) (j : Nat) : Nat :=
  block.getD (4 * j) 0 * 0x1000000 + block.getD (4 * j + 1) 0 * 0x10000
    + block.getD (4 * j + 2) 0 * 0x100 + block.getD (4 * j + 3) 0

/-- The 64-entry SHA-256 message schedule of one block. -/
def schedule (block : List Nat) : List Nat :=
  (List.range 48).foldl
    (fun w _ =>
      let n := w.length
      w ++ [(ssig1 (w.getD (n - 2) 0) + w.getD (n - 7) 0
             + ssig0 (w.getD (n - 15) 0) + w.getD (n - 16) 0) % 2 ^ 32])
    ((List.range 16).map (blockWord block))

/-- One SHA-256 round. -/
def roundStep (s : Hash8) (kw : Nat × Nat) : Hash8 :=
  let t1 := (s.h + bsig1 s.e + ch32 s.e s.f s.g + kw.1 + kw.2) % 2 ^ 32
  let t2 := (bsig0 s.a + maj32 s.a s.b s.c) % 2 ^ 32
  ⟨(t1 + t2) % 2 ^ 32, s.a, s.b, s.c, (s.d + t1) % 2 ^ 32, s.e, s.f, s.g⟩

/-- Compress one 64-byte block into the running state. -/
def compressBlock (s : Hash8) (block : List Nat) : Hash8 :=
  let t := (K256.zip (schedule block)).foldl roundStep s
  ⟨(s.a + t.a) % 2 ^ 32, (s.b + t.b) % 2 ^ 32, (s.c + t.c) % 2 ^ 32,
   (s.d + t.d) % 2 ^ 32, (s.e + t.e) % 2 ^ 32, (s.f + t.f) % 2 ^ 32,
   (s.g + t.g) % 2 ^ 32, (s.h + t.h) % 2 ^ 32⟩

/-- Split a byte list into 64-byte blocks (fuel-driven so it reduces in the
kernel; called with fuel at least the list length). -/
def chunk64 : Nat → List Nat → List (List Nat)
  | 0, _ => []
  | fuel + 1, l => if l.isEmpty then [] else l.take 64 :: chunk64 fuel (l.drop 64)

/-- The SHA-256 state after hashing a whole message. -/
def sha256hash (msg : List Nat) : Hash8 :=
  let p := sha256pad msg
  (chunk64 p.length p).foldl compressBlock sha256init

/-- Lower-case hexadecimal digit for `n < 16`. -/
def hexDigit (n : Nat) : Char :=
  if n < 10 then Char.ofNat (48 + n) else Char.ofNat (87 + n)

/-- The 8 hex characters of a 32-bit word, most significant first. -/
def word8hex (w : Nat) : List Char :=
  (List.range 8).map fun i => hexDigit (w / 16 ^ (7 - i) % 16)

/-- The 64 hex characters of the SHA-256 digest of a byte list
(Python `hashlib.sha256(...).hexdigest()`). -/
def sha256hexChars (msg : List Nat) : List Char :=
  let s := sha256hash msg
  word8hex s.a ++ word8hex s.b ++ word8hex s.c ++ word8hex s.d
    ++ word8hex s.e ++ word8hex s.f ++ word8hex s.g ++ word8hex s.h

/-- Python `anonimizar_id(valor)`: the first 10 characters of
`hashlib.sha256(str(valor).encode()).hexdigest()`. -/
def anonimizar_id (valor : Value) : String :=
  ⟨(sha256hexChars (utf8Encode (pyStr valor))).take 10⟩

/-! ### Tabular data, mapping tables and the mapping store -/

/-- A pandas DataFrame: an ordered list of named columns; each column is an
ordered list of cells, a missing cell being `Value.nan`. -/
structure DataFrame where
  cols : List (String × List Value)
deriving DecidableEq, Repr

/-- The column names of a data frame, in order (`df.columns`). -/
def DataFrame.names (df : DataFrame) : List String :=
  df.cols.map Prod.fst

/-- Predicate: `df` is rectangular with `n` rows: every column has `n` cells. -/
def DataFrame.Rect (df : DataFrame) (n : Nat) : Prop :=
  ∀ p ∈ df.cols, p.2.length = n

instance (df : DataFrame) (n : Nat) : Decidable (df.Rect n) :=
  inferInstanceAs (Decidable (∀ p ∈ df.cols, p.2.length = n))

/-- A mapping table (one Python dict `{real value: token}`): an
insertion-ordered association list. -/
abbrev MapTable := List (Value × Value)

/-- Python `k in d` / `d[k]` on a mapping table: the value of the first
(and, under the dict invariant, only) entry with key `k`. -/
def MapTable.lookup (m : MapTable) (k : Value) : Option Value :=
  (m.find? fun p => p.1 = k).map Prod.snd

/-- Python `d[k] = v` on a mapping table: update in place if `k` is present,
otherwise append a new entry (dict insertion order). -/
def MapTable.insert (m : MapTable) (k v : Value) : MapTable :=
  if (m.lookup k).isSome then
    m.map fun p => if p.1 = k then (k, v) else p
  else m ++ [(k, v)]

/-- The mapping store `mapeos_globales`: an insertion-ordered association
list from group name to mapping table. -/
abbrev Store := List (String × MapTable)

/-- Python `mapeos_globales.get(g)` returning `none` when absent. -/
def Store.get? (s : Store) (g : String) : Option MapTable :=
  (s.find? fun p => p.1 = g).map Prod.snd

/-- Python `mapeos_globales.get(g, \x7b\x7d)`. -/
def Store.get (s : Store) (g : String) : MapTable :=
  (s.get? g).getD []

/-- Python `mapeos_globales[g] = m`: update in place if present, else append. -/
def Store.set (s : Store) (g : String) (m : MapTable) : Store :=
  if (s.get? g).isSome then
    s.map fun p => if p.1 = g then (g, m) else p
  else s ++ [(g, m)]

/-! ### Batch normalizer (sensitive-column removal) -/

/-- The fixed list `cols_eliminar` of disallowed name columns. -/
def cols_eliminar : List String :=
  ["BE_AP_PAT_ASEG", "BE_AP_MAT_ASEG", "BE_NOMB_ASEG",
   "BE_AP_PAT_PACI", "BE_AP_MAT_PACI", "BE_NOMB_PACI"]

/-- Python `df_nuevo.drop(columns=[c for c in cols_eliminar if c in df_nuevo.columns])`:
remove the disallowed columns that are present, keep everything else. -/
def dropSensitive (df : DataFrame) : DataFrame :=
  ⟨df.cols.filter fun p => ¬ p.1 ∈ cols_eliminar⟩

/-! ### Consistent rewriter -/

/-- The fixed alias table `grupos_columnas`, in Python dict order. -/
def grupos_columnas : List (String × List String) :=
  [("Rut 1", ["Rut 1", "Rut beneficiario"]),
   ("Rut 2", ["Rut 2", "RUT Trabajador"]),
   ("ID SAP", ["ID SAP", "No.Personal"])]

/-- The canonical group of a column name: the first group (in dict order)
whose alias list contains the name, as in the `for grupo_base ... break`
loop; `none` when the column belongs to no group. -/
def groupOf (col : String) : Option String :=
  (grupos_columnas.find? fun p => p.2.contains col).map Prod.fst

/-- Order-preserving first-occurrence deduplication (pandas
`Series.unique()` on the non-null values), with an accumulator of values
already seen so the recursion is structural. -/
def uniqAux [DecidableEq α] : List α → List α → List α
  | _, [] => []
  | seen, x :: xs =>
      if x ∈ seen then uniqAux seen xs else x :: uniqAux (seen ++ [x]) xs

/-- Python `series.dropna().unique()`: the distinct non-missing cells of a column,
in first-occurrence order. -/
def dropnaUnique (cells : List Value) : List Value :=
  uniqAux [] (cells.filter fun c => ¬ c = Value.nan)

/-- The `for valor in ...: if valor not in mapeo: mapeo[valor] = anonimizar_id(valor)`
loop: extend the table with a fresh token for each value not yet mapped. -/
def extendTable (m : MapTable) (vals : List Value) : MapTable :=
  vals.foldl
    (fun m v => if (m.lookup v).isSome then m else m ++ [(v, .vstr (anonimizar_id v))])
    m

/-- Python `df_nuevo[col].map(mapeo)`: every cell is replaced by its token; cells
absent from the table, and missing cells (NaN never compares equal to a
dict key in Python), become missing. -/
def mapColumn (m : MapTable) (cells : List Value) : List Value :=
  cells.map fun c =>
    if c = Value.nan then Value.nan else (m.lookup c).getD Value.nan

/-- The `for col in df_nuevo.columns` anonymization loop: each column whose
name belongs to a group extends that group's table with its new values, is
rewritten through the extended table, and the table is written back to the
store; other columns pass through unchanged. -/
def rewriteCols : Store → List (String × List Value) → Store × List (String × List Value)
  | store, [] => (store, [])
  | store, (name, cells) :: rest =>
      match groupOf name with
      | none =>
          let r := rewriteCols store rest
          (r.1, (name, cells) :: r.2)
      | some g =>
          let m := extendTable (store.get g) (dropnaUnique cells)
          let r := rewriteCols (store.set g m) rest
          (r.1, (name, mapColumn m cells) :: r.2)

/-! ### Schema reconciliation and merge -/

/-- The first column of `df` named `n`, if any (`df[n]` for a unique name). -/
def getColumn (df : DataFrame) (n : String) : Option (List Value) :=
  (df.cols.find? fun p => p.1 = n).map Prod.snd

/-- Select the named columns of `df` in the given order; `none` as soon as
one name is absent. -/
def selectColsList (df : DataFrame) : List String → Option (List (String × List Value))
  | [] => some []
  | n :: ns =>
      match getColumn df n, selectColsList df ns with
      | some cells, some rest => some ((n, cells) :: rest)
      | _, _ => none

/-- Python `df_nuevo[df_existente.columns]`: select the named columns in the given
order; any name absent from `df` raises a `KeyError`, modelled as `none`. -/
def selectCols (df : DataFrame) (names : List String) : Option DataFrame :=
  (selectColsList df names).map DataFrame.mk

/-- Python `pd.concat([a, b], ignore_index=True)` for frames whose column names
coincide positionwise (guaranteed here by the preceding selection):
columnwise concatenation of the cell lists. -/
def concatDF (a b : DataFrame) : DataFrame :=
  ⟨List.zipWith (fun p q => (p.1, p.2 ++ q.2)) a.cols b.cols⟩

/-- Lines 76–79: align the batch to the consolidated schema, then append. -/
def mergeStep (existing batch : DataFrame) : Option DataFrame :=
  (selectCols batch existing.names).map fun sel => concatDF existing sel

/-! ### Mapping store persistence -/

/-- A persisted spreadsheet file: an ordered list of named sheets, each a
table. `none` models a path for which `os.path.exists` is false. -/
abbrev SheetFile := List (String × DataFrame)

/-- Python `s[:31]` string truncation at the character level. -/
def strTake (s : String) (n : Nat) : String := ⟨s.data.take n⟩

/-- Remove every occurrence of the pattern, left to right
(`hoja.replace("Grupo_", "")`); fuel-driven structural recursion, called
with fuel at least the length of the scanned text. -/
def removeAllAux (pat : List Char) : Nat → List Char → List Char
  | 0, l => l
  | _ + 1, [] => []
  | fuel + 1, c :: rest =>
      if (c :: rest).take pat.length = pat then
        removeAllAux pat fuel ((c :: rest).drop pat.length)
      else c :: removeAllAux pat fuel rest

/-- Python `s.replace(pat, "")` for a nonempty pattern. -/
def removeAll (pat s : String) : String :=
  ⟨removeAllAux pat.data s.data.length s.data⟩

/-- Python `pat in s`: substring containment. -/
def isSubstr (pat s : String) : Bool :=
  (List.range (s.data.length + 1)).any fun i =>
    (s.data.drop i).take pat.data.length = pat.data

/-- Lines 35–42: normalize a (prefix-stripped) sheet name to its canonical
group key by substring matching, falling back to the name itself. -/
def canonicalKey (nombre : String) : String :=
  if isSubstr "Rut 1" nombre || isSubstr "Rut beneficiario" nombre then "Rut 1"
  else if isSubstr "Rut 2" nombre || isSubstr "RUT Trabajador" nombre then "Rut 2"
  else if isSubstr "ID SAP" nombre || isSubstr "No.Personal" nombre then "ID SAP"
  else nombre

/-- Python `dict(zip(keys, vals))`: left-to-right insertion, later duplicates of a
key overwrite the earlier value. -/
def dictOfPairs (ps : List (Value × Value)) : MapTable :=
  ps.foldl (fun m p => m.insert p.1 p.2) []

/-- The mapping table read from one sheet: the first two columns by
position (`df_mapeo.columns[:2]`, then `df_mapeo[col_real]`,
`df_mapeo[col_anon]`), zipped and turned into a dict. -/
def sheetTable (df : DataFrame) : MapTable :=
  let colReal := (df.cols.getD 0 ("", [])).1
  let colAnon := (df.cols.getD 1 ("", [])).1
  dictOfPairs (List.zip ((getColumn df colReal).getD [])
                        ((getColumn df colAnon).getD []))

/-- Lines 27–43, one sheet: strip the `Grupo_` prefix, skip tables with
fewer than two columns, otherwise store the sheet's dict under the
canonical key. -/
def loadSheet (store : Store) (sheet : String × DataFrame) : Store :=
  let nombre := removeAll "Grupo_" sheet.1
  if 2 ≤ sheet.2.cols.length then
    store.set (canonicalKey nombre) (sheetTable sheet.2)
  else store

/-- Lines 27–43: load the mapping store; a missing file yields the empty
store, otherwise the sheets are folded in order into an empty store. -/
def loadStore : Option SheetFile → Store
  | none => []
  | some sheets => sheets.foldl loadSheet []

/-- Lines 85–88: each group is written as a two-column sheet
`<g>_real`/`<g>_anon`, one row per entry in dict order, under the sheet
name `f"Grupo_{grupo}"[:31]`. -/
def saveStore (store : Store) : SheetFile :=
  store.map fun p =>
    (strTake ("Grupo_" ++ p.1) 31,
     ⟨[(p.1 ++ "_real", p.2.map Prod.fst), (p.1 ++ "_anon", p.2.map Prod.snd)]⟩)

/-! ### The full in-memory pipeline -/

/-- The in-memory core of `procesar_bonificaciones` after the three reads:
normalize the batch, rewrite its identifier columns against the store, and
merge into the consolidated frame (`none` when the column selection on
line 76 raises). Returns the merged frame and the updated store. -/
def procesar_core (df_existente df_nuevo : DataFrame) (mapeos : Store) :
    Option (DataFrame × Store) :=
  let r := rewriteCols mapeos (dropSensitive df_nuevo).cols
  (mergeStep df_existente ⟨r.2⟩).map fun merged => (merged, r.1)

/-- Function `procesar_bonificaciones`: load the store from the mapping file, run the
core, and persist the updated store as a sheet file (the merged frame is
returned alongside, as the function returns `df_final` and writes it back). -/
def procesar_bonificaciones (df_existente df_nuevo : DataFrame)
    (archivo_mapeo : Option SheetFile) :
    Option (DataFrame × Store × SheetFile) :=
  (procesar_core df_existente df_nuevo (loadStore archivo_mapeo)).map
    fun r => (r.1, r.2, saveStore r.2)

/-! ### Association-list lemmas for mapping tables and the store -/

theorem MapTable.lookup_nil (v : Value) : MapTable.lookup [] v = none := rfl

theorem MapTable.lookup_append (m l : MapTable) (v : Value) :
    MapTable.lookup (m ++ l) v =
      ((MapTable.lookup m v).rec (MapTable.lookup l v) fun t => some t) := by
  induction m with
  | nil => simp [MapTable.lookup]
  | cons p m ih =>
    by_cases h : p.1 = v
    · simp [MapTable.lookup, List.find?_cons_of_pos, h]
    · simpa [MapTable.lookup, List.find?_cons_of_neg, h] using ih

theorem MapTable.lookup_append_of_isSome (m l : MapTable) (v : Value)
    (h : (MapTable.lookup m v).isSome) :
    MapTable.lookup (m ++ l) v = MapTable.lookup m v := by
  rw [MapTable.lookup_append]
  cases hm : MapTable.lookup m v with
  | none => rw [hm] at h; simp at h
  | some t => rfl

theorem MapTable.lookup_append_single_ne (m : MapTable) (k w v : Value)
    (hk : k ≠ v) :
    MapTable.lookup (m ++ [(k, w)]) v = MapTable.lookup m v := by
  rw [MapTable.lookup_append]
  cases hm : MapTable.lookup m v with
  | none => simp [MapTable.lookup, List.find?_cons_of_neg, hk]
  | some t => rfl

theorem MapTable.lookup_eq_none_of_not_mem (m : MapTable) (v : Value)
    (h : ¬ v ∈ m.map Prod.fst) : MapTable.lookup m v = none := by
  induction m with
  | nil => rfl
  | cons p m ih =>
    simp only [List.map_cons, List.mem_cons] at h
    push_neg at h
    rw [MapTable.lookup, List.find?_cons_of_neg _ (by simpa using (Ne.symm h.1))]
    exact ih h.2

theorem MapTable.mem_keys_of_lookup_isSome (m : MapTable) (v : Value)
    (h : (MapTable.lookup m v).isSome) : v ∈ m.map Prod.fst := by
  by_contra hmem
  rw [MapTable.lookup_eq_none_of_not_mem m v hmem] at h
  simp at h

theorem Store.get?_mapUpdate_self (s : Store) (g : String) (m : MapTable)
    (h : (Store.get? s g).isSome) :
    Store.get? (s.map fun p => if p.1 = g then (g, m) else p) g = some m := by
  induction s with
  | nil => simp [Store.get?] at h
  | cons p s ih =>
    by_cases hp : p.1 = g
    · simp [Store.get?, List.find?_cons_of_pos, hp]
    · rw [Store.get?, List.find?_cons_of_neg _ (by simpa using hp)] at h
      rw [List.map_cons, if_neg hp, Store.get?,
        List.find?_cons_of_neg _ (by simpa using hp)]
      exact ih h

theorem Store.get?_mapUpdate_ne (s : Store) (g g' : String) (m : MapTable)
    (h : g' ≠ g) :
    Store.get? (s.map fun p => if p.1 = g then (g, m) else p) g' =
      Store.get? s g' := by
  induction s with
  | nil => rfl
  | cons p s ih =>
    by_cases hp : p.1 = g
    · rw [List.map_cons, if_pos hp, Store.get?,
        List.find?_cons_of_neg _ (by simpa using Ne.symm h), Store.get?,
        List.find?_cons_of_neg _ (by simp [hp]; exact fun hx => h hx.symm)]
      exact ih
    · by_cases hp' : p.1 = g'
      · rw [List.map_cons, if_neg hp]
        simp [Store.get?, List.find?_cons_of_pos, hp']
      · rw [List.map_cons, if_neg hp, Store.get?,
          List.find?_cons_of_neg _ (by simpa using hp'), Store.get?,
          List.find?_cons_of_neg _ (by simpa using hp')]
        exact ih

theorem Store.get?_set_self (s : Store) (g : String) (m : MapTable) :
    Store.get? (Store.set s g m) g = some m := by
  unfold Store.set
  by_cases h : (Store.get? s g).isSome
  · rw [if_pos h]
    exact Store.get?_mapUpdate_self s g m h
  · rw [if_neg h]
    have hnone : Store.get? s g = none := by
      cases hx : Store.get? s g with
      | none => rfl
      | some t => rw [hx] at h; simp at h
    rw [Store.get?, List.find?_append]
    have hfind : List.find? (fun p => p.1 = g) s = none := by
      cases hx : List.find? (fun p => decide (p.1 = g)) s with
      | none => rfl
      | some t => rw [Store.get?, hx] at hnone; simp at hnone
    rw [hfind]
    simp only [Option.none_or]
    rw [List.find?_cons_of_pos _ (by simp)]
    rfl

theorem Store.get?_set_ne (s : Store) (g g' : String) (m : MapTable)
    (h : g' ≠ g) : Store.get? (Store.set s g m) g' = Store.get? s g' := by
  unfold Store.set
  by_cases hs : (Store.get? s g).isSome
  · rw [if_pos hs]
    exact Store.get?_mapUpdate_ne s g g' m h
  · rw [if_neg hs, Store.get?, List.find?_append]
    cases hx : List.find? (fun p => decide (p.1 = g')) s with
    | some t => simp [Store.get?, hx]
    | none =>
      rw [Store.get?, hx]
      simp only [Option.none_or]
      rw [List.find?_cons_of_neg _ (by simpa using Ne.symm h)]
      rfl

theorem Store.get_set_self (s : Store) (g : String) (m : MapTable) :
    Store.get (Store.set s g m) g = m := by
  rw [Store.get, Store.get?_set_self]; rfl

theorem Store.get_set_ne (s : Store) (g g' : String) (m : MapTable)
    (h : g' ≠ g) : Store.get (Store.set s g m) g' = Store.get s g' := by
  rw [Store.get, Store.get?_set_ne s g g' m h]; rfl

theorem Store.get?_eq_none_of_not_mem (s : Store) (g : String)
    (h : ¬ g ∈ s.map Prod.fst) : Store.get? s g = none := by
  induction s with
  | nil => rfl
  | cons p s ih =>
    simp only [List.map_cons, List.mem_cons] at h
    push_neg at h
    rw [Store.get?, List.find?_cons_of_neg _ (by simpa using (Ne.symm h.1))]
    exact ih h.2

theorem Store.set_append_of_not_mem (s : Store) (g : String) (m : MapTable)
    (h : ¬ g ∈ s.map Prod.fst) : Store.set s g m = s ++ [(g, m)] := by
  rw [Store.set, Store.get?_eq_none_of_not_mem s g h]
  rfl

theorem Store.keys_set (s : Store) (g : String) (m : MapTable) :
    (Store.set s g m).map Prod.fst =
      if (Store.get? s g).isSome then s.map Prod.fst
      else s.map Prod.fst ++ [g] := by
  unfold Store.set
  by_cases h : (Store.get? s g).isSome
  · simp only [h, if_true, List.map_map]
    apply List.map_congr_left
    intro p _
    by_cases hp : p.1 = g <;> simp [hp]
  · simp [h]

theorem MapTable.lookup_isSome_of_mem_keys (m : MapTable) (v : Value)
    (h : v ∈ m.map Prod.fst) : (MapTable.lookup m v).isSome := by
  induction m with
  | nil => simp at h
  | cons p m ih =>
    by_cases hp : p.1 = v
    · simp [MapTable.lookup, List.find?_cons_of_pos, hp]
    · rw [MapTable.lookup, List.find?_cons_of_neg _ (by simpa using hp)]
      simp only [List.map_cons, List.mem_cons] at h
      exact ih (h.resolve_left fun hx => hp hx.symm)

theorem MapTable.lookup_append_of_none (m l : MapTable) (v : Value)
    (h : MapTable.lookup m v = none) :
    MapTable.lookup (m ++ l) v = MapTable.lookup l v := by
  rw [MapTable.lookup, List.find?_append]
  have hfind : List.find? (fun p => p.1 = v) m = none := by
    cases hx : List.find? (fun p => decide (p.1 = v)) m with
    | none => rfl
    | some t => rw [MapTable.lookup, hx] at h; simp at h
  rw [hfind]
  simp only [Option.none_or]
  rfl

theorem MapTable.lookup_singleton (k w v : Value) (h : k = v) :
    MapTable.lookup [(k, w)] v = some w := by
  subst h
  simp [MapTable.lookup, List.find?_cons_of_pos]

/-! ### Lemmas about the consistent rewriter -/

theorem extendTable_cons (m : MapTable) (v : Value) (vs : List Value) :
    extendTable m (v :: vs) =
      extendTable
        (if (MapTable.lookup m v).isSome then m
         else m ++ [(v, .vstr (anonimizar_id v))]) vs := rfl

theorem extendTable_lookup_mono (vs : List Value) (m : MapTable) (v t : Value)
    (h : MapTable.lookup m v = some t) :
    MapTable.lookup (extendTable m vs) v = some t := by
  induction vs generalizing m with
  | nil => exact h
  | cons v' vs ih =>
    rw [extendTable_cons]
    by_cases hv' : (MapTable.lookup m v').isSome
    · rw [if_pos hv']
      exact ih m h
    · rw [if_neg hv']
      apply ih
      rw [MapTable.lookup_append_of_isSome m _ v (by rw [h]; rfl)]
      exact h

theorem extendTable_lookup_of_mem (vs : List Value) (m : MapTable) (v : Value)
    (hv : v ∈ vs) :
    MapTable.lookup (extendTable m vs) v =
      some ((MapTable.lookup m v).getD (.vstr (anonimizar_id v))) := by
  induction vs generalizing m with
  | nil => cases hv
  | cons v' vs ih =>
    rw [extendTable_cons]
    by_cases heq : v' = v
    · subst heq
      cases hm : MapTable.lookup m v' with
      | some t =>
        rw [if_pos (by simp [hm])]
        simpa [hm] using extendTable_lookup_mono vs m v' t hm
      | none =>
        rw [if_neg (by simp [hm])]
        have hnew : MapTable.lookup (m ++ [(v', .vstr (anonimizar_id v'))]) v' =
            some (.vstr (anonimizar_id v')) := by
          rw [MapTable.lookup_append_of_none m _ v' hm]
          exact MapTable.lookup_singleton _ _ _ rfl
        simpa [hm] using extendTable_lookup_mono vs _ v' _ hnew
    · have hv'' : v ∈ vs := by
        cases hv with
        | head => exact absurd rfl heq
        | tail _ h => exact h
      by_cases hsome : (MapTable.lookup m v').isSome
      · rw [if_pos hsome]
        exact ih m hv''
      · rw [if_neg hsome]
        rw [ih _ hv'', MapTable.lookup_append_single_ne m _ _ v heq]

theorem extendTable_keys_nodup (vs : List Value) (m : MapTable)
    (h : (m.map Prod.fst).Nodup) :
    ((extendTable m vs).map Prod.fst).Nodup := by
  induction vs generalizing m with
  | nil => exact h
  | cons v vs ih =>
    rw [extendTable_cons]
    by_cases hs : (MapTable.lookup m v).isSome
    · rw [if_pos hs]
      exact ih m h
    · rw [if_neg hs]
      apply ih
      rw [List.map_append]
      refine List.Nodup.append h (List.nodup_singleton v) ?_
      intro a ha hav
      simp only [List.map_cons, List.map_nil, List.mem_singleton] at hav
      subst hav
      exact hs (MapTable.lookup_isSome_of_mem_keys m a ha)

theorem mapColumn_getD (m : MapTable) (cells : List Value) (j : Nat)
    (hj : j < cells.length) :
    (mapColumn m cells).getD j .nan =
      (if cells.getD j .nan = Value.nan then Value.nan
       else (MapTable.lookup m (cells.getD j .nan)).getD Value.nan) := by
  rw [mapColumn, List.getD_eq_getElem?_getD, List.getElem?_map,
    List.getElem?_eq_getElem hj]
  simp [List.getD_eq_getElem?_getD, List.getElem?_eq_getElem hj]

theorem mapColumn_length (m : MapTable) (cells : List Value) :
    (mapColumn m cells).length = cells.length := by
  simp [mapColumn]

theorem rewriteCols_store_mono (cols : List (String × List Value))
    (store : Store) (g' : String) (v' t' : Value)
    (h : MapTable.lookup (Store.get store g') v' = some t') :
    MapTable.lookup (Store.get (rewriteCols store cols).1 g') v' = some t' := by
  induction cols generalizing store with
  | nil => exact h
  | cons c cols ih =>
    obtain ⟨name, cells⟩ := c
    cases hgo : groupOf name with
    | none =>
      simp only [rewriteCols, hgo]
      exact ih store h
    | some g =>
      simp only [rewriteCols, hgo]
      apply ih
      by_cases hgg : g' = g
      · subst hgg
        rw [Store.get_set_self]
        exact extendTable_lookup_mono _ _ _ _ h
      · rw [Store.get_set_ne _ _ _ _ hgg]
        exact h

theorem rewriteCols_length (cols : List (String × List Value)) (store : Store) :
    (rewriteCols store cols).2.length = cols.length := by
  induction cols generalizing store with
  | nil => rfl
  | cons c cols ih =>
    obtain ⟨name, cells⟩ := c
    cases hgo : groupOf name <;> simp [rewriteCols, hgo, ih]

theorem rewriteCols_names (cols : List (String × List Value)) (store : Store) :
    (rewriteCols store cols).2.map Prod.fst = cols.map Prod.fst := by
  induction cols generalizing store with
  | nil => rfl
  | cons c cols ih =>
    obtain ⟨name, cells⟩ := c
    cases hgo : groupOf name <;> simp [rewriteCols, hgo, ih]

theorem rewriteCols_hit (cols : List (String × List Value)) (store : Store)
    (i : Nat) (hi : i < cols.length) (g : String) (v t : Value)
    (hv : ¬ v = Value.nan)
    (hg : groupOf (cols.getD i ("", [])).1 = some g)
    (ht : MapTable.lookup (Store.get store g) v = some t)
    (j : Nat) (hj : j < (cols.getD i ("", [])).2.length)
    (hcell : (cols.getD i ("", [])).2.getD j .nan = v) :
    ((rewriteCols store cols).2.getD i ("", [])).2.getD j .nan = t := by
  induction cols generalizing store i with
  | nil => simp at hi
  | cons c cols ih =>
    obtain ⟨name, cells⟩ := c
    cases i with
    | zero =>
      simp only [List.getD_cons_zero] at hg hj hcell
      simp only [rewriteCols, hg, List.getD_cons_zero]
      have hm : MapTable.lookup
          (extendTable (Store.get store g) (dropnaUnique cells)) v = some t :=
        extendTable_lookup_mono _ _ _ _ ht
      rw [mapColumn_getD _ _ j hj, hcell, if_neg hv, hm]
      rfl
    | succ i =>
      simp only [List.getD_cons_succ] at hg hj hcell
      simp only [List.length_cons, Nat.succ_lt_succ_iff] at hi
      cases hgo : groupOf name with
      | none =>
        simp only [rewriteCols, hgo, List.getD_cons_succ]
        exact ih store i hi hg ht hj hcell
      | some g0 =>
        simp only [rewriteCols, hgo, List.getD_cons_succ]
        apply ih _ i hi hg _ hj hcell
        by_cases hgg : g = g0
        · subst hgg
          rw [Store.get_set_self]
          exact extendTable_lookup_mono _ _ _ _ ht
        · rw [Store.get_set_ne _ _ _ _ hgg]
          exact ht

/-! ### Lemmas about `dropnaUnique` -/

theorem mem_uniqAux [DecidableEq α] (l seen : List α) (x : α) :
    x ∈ uniqAux seen l ↔ x ∈ l ∧ ¬ x ∈ seen := by
  induction l generalizing seen with
  | nil => simp [uniqAux]
  | cons y l ih =>
    by_cases hy : y ∈ seen
    · rw [uniqAux, if_pos hy, ih]
      constructor
      · rintro ⟨hx, hs⟩
        exact ⟨.tail _ hx, hs⟩
      · rintro ⟨hx, hs⟩
        cases hx with
        | head => exact absurd hy hs
        | tail _ h => exact ⟨h, hs⟩
    · rw [uniqAux, if_neg hy]
      constructor
      · intro hx
        cases hx with
        | head => exact ⟨.head _, hy⟩
        | tail _ h =>
          have h2 := (ih (seen ++ [y])).mp h
          exact ⟨.tail _ h2.1, fun hs => h2.2 (by simp [hs])⟩
      · rintro ⟨hx, hs⟩
        cases hx with
        | head => exact .head _
        | tail _ h =>
          by_cases hxy : x = y
          · subst hxy
            exact .head _
          · exact .tail _ ((ih (seen ++ [y])).mpr ⟨h, by simp [hs, hxy]⟩)

theorem mem_dropnaUnique (cells : List Value) (v : Value) :
    v ∈ dropnaUnique cells ↔ v ∈ cells ∧ ¬ v = Value.nan := by
  rw [dropnaUnique, mem_uniqAux]
  simp [List.mem_filter]

/-! ### Lemmas about column selection and the merge -/

theorem getColumn_eq_none (df : DataFrame) (n : String)
    (h : ¬ n ∈ df.names) : getColumn df n = none := by
  rw [getColumn]
  have hfind : df.cols.find? (fun p => p.1 = n) = none := by
    rw [List.find?_eq_none]
    intro p hp
    simp only [decide_eq_true_eq]
    exact fun he => h (he ▸ List.mem_map_of_mem Prod.fst hp)
  rw [hfind]
  rfl

theorem getColumn_isSome_iff (df : DataFrame) (n : String) :
    (getColumn df n).isSome ↔ n ∈ df.names := by
  constructor
  · intro h
    by_contra hmem
    rw [getColumn_eq_none df n hmem] at h
    simp at h
  · intro hmem
    rw [DataFrame.names, List.mem_map] at hmem
    obtain ⟨p, hp, hpn⟩ := hmem
    have hsome : (df.cols.find? fun q => q.1 = n).isSome := by
      rw [List.find?_isSome]
      exact ⟨p, hp, by simp [hpn]⟩
    obtain ⟨q, hq⟩ := Option.isSome_iff_exists.mp hsome
    rw [getColumn, hq]
    rfl

theorem getColumn_mem (df : DataFrame) (n : String) (cells : List Value)
    (h : getColumn df n = some cells) : (n, cells) ∈ df.cols := by
  rw [getColumn] at h
  cases hfind : df.cols.find? (fun p => p.1 = n) with
  | none => rw [hfind] at h; simp at h
  | some p =>
    obtain ⟨p1, p2⟩ := p
    rw [hfind] at h
    have hp := List.find?_some hfind
    have hmem := List.mem_of_find?_eq_some hfind
    simp only [decide_eq_true_eq] at hp
    have h2 : p2 = cells := by simpa using h
    subst h2
    subst hp
    exact hmem

theorem selectColsList_eq_none (df : DataFrame) (names : List String)
    (c : String) (hc : c ∈ names) (hdf : ¬ c ∈ df.names) :
    selectColsList df names = none := by
  induction names with
  | nil => cases hc
  | cons n ns ih =>
    rw [selectColsList]
    cases hc with
    | head =>
      rw [getColumn_eq_none df c hdf]
    | tail _ h =>
      rw [ih h]
      cases getColumn df n <;> rfl

theorem selectColsList_of_sub (df : DataFrame) (names : List String)
    (h : ∀ c ∈ names, c ∈ df.names) :
    selectColsList df names =
      some (names.map fun n => (n, (getColumn df n).getD [])) := by
  induction names with
  | nil => rfl
  | cons n ns ih =>
    have hn : (getColumn df n).isSome :=
      (getColumn_isSome_iff df n).mpr (h n (.head _))
    obtain ⟨cells, hcells⟩ := Option.isSome_iff_exists.mp hn
    rw [selectColsList, hcells, ih fun c hc => h c (.tail _ hc)]
    simp [hcells]

theorem selectColsList_sub (df : DataFrame) (names : List String)
    (l : List (String × List Value)) (h : selectColsList df names = some l) :
    ∀ c ∈ names, c ∈ df.names := by
  induction names generalizing l with
  | nil => intro c hc; cases hc
  | cons n ns ih =>
    rw [selectColsList] at h
    cases hg : getColumn df n with
    | none => rw [hg] at h; simp at h
    | some cells =>
      rw [hg] at h
      cases hrest : selectColsList df ns with
      | none => rw [hrest] at h; simp at h
      | some rest =>
        intro c hc
        cases hc with
        | head =>
          exact (getColumn_isSome_iff df n).mp (by rw [hg]; rfl)
        | tail _ hc2 => exact ih rest hrest c hc2

theorem map_fst_zipWithCat (as bs : List (String × List Value))
    (h : as.length ≤ bs.length) :
    (List.zipWith (fun p q => (p.1, p.2 ++ q.2)) as bs).map Prod.fst =
      as.map Prod.fst := by
  induction as generalizing bs with
  | nil => rfl
  | cons a as ih =>
    cases bs with
    | nil => simp at h
    | cons b bs =>
      simp only [List.length_cons, Nat.succ_le_succ_iff] at h
      simp [ih bs h]

theorem zipWithCat_getD (as bs : List (String × List Value)) (i : Nat)
    (hi : i < as.length) (h : as.length ≤ bs.length) :
    (List.zipWith (fun p q => (p.1, p.2 ++ q.2)) as bs).getD i ("", []) =
      ((as.getD i ("", [])).1,
       (as.getD i ("", [])).2 ++ (bs.getD i ("", [])).2) := by
  induction as generalizing bs i with
  | nil => simp at hi
  | cons a as ih =>
    cases bs with
    | nil => simp at h
    | cons b bs =>
      simp only [List.length_cons, Nat.succ_le_succ_iff] at h
      cases i with
      | zero => simp
      | succ i =>
        simp only [List.length_cons, Nat.succ_lt_succ_iff] at hi
        simpa using ih bs i hi h

theorem getD_map_lt {α β : Type} (f : α → β) (l : List α) (i : Nat) (d : α)
    (d' : β) (h : i < l.length) : (l.map f).getD i d' = f (l.getD i d) := by
  rw [List.getD_eq_getElem?_getD, List.getElem?_map, List.getElem?_eq_getElem h,
    List.getD_eq_getElem?_getD, List.getElem?_eq_getElem h]
  rfl

theorem selectColsList_names (df : DataFrame) (names : List String)
    (l : List (String × List Value)) (h : selectColsList df names = some l) :
    l.map Prod.fst = names := by
  induction names generalizing l with
  | nil =>
    rw [selectColsList] at h
    cases h
    rfl
  | cons n ns ih =>
    rw [selectColsList] at h
    cases hg : getColumn df n with
    | none => rw [hg] at h; simp at h
    | some cells =>
      rw [hg] at h
      cases hrest : selectColsList df ns with
      | none => rw [hrest] at h; simp at h
      | some rest =>
        rw [hrest] at h
        cases h
        simp [ih rest hrest]

theorem mergeStep_some_names (E B merged : DataFrame)
    (h : mergeStep E B = some merged) : merged.names = E.names := by
  rw [mergeStep, selectCols] at h
  cases hsel : selectColsList B E.names with
  | none => rw [hsel] at h; simp at h
  | some l =>
    rw [hsel] at h
    simp only [Option.map_some, Option.map, Option.some.injEq] at h
    have hnames := selectColsList_names B E.names l hsel
    have hlen : E.cols.length ≤ l.length := by
      have h1 : l.length = E.names.length := by rw [← hnames, List.length_map]
      have h2 : E.names.length = E.cols.length := List.length_map _ _
      omega
    rw [← h]
    show (concatDF E ⟨l⟩).names = E.names
    rw [concatDF, DataFrame.names]
    exact map_fst_zipWithCat E.cols l hlen

theorem mergeStep_some_sub (E B merged : DataFrame)
    (h : mergeStep E B = some merged) : ∀ c ∈ E.names, c ∈ B.names := by
  rw [mergeStep, selectCols] at h
  cases hsel : selectColsList B E.names with
  | none => rw [hsel] at h; simp at h
  | some l => exact selectColsList_sub B E.names l hsel

theorem procesar_core_eq (E B : DataFrame) (store : Store) :
    procesar_core E B store =
      (mergeStep E ⟨(rewriteCols store (dropSensitive B).cols).2⟩).map
        fun merged => (merged, (rewriteCols store (dropSensitive B).cols).1) :=
  rfl

theorem procesar_core_some_merge (E B : DataFrame) (store : Store)
    (merged : DataFrame) (store' : Store)
    (h : procesar_core E B store = some (merged, store')) :
    mergeStep E ⟨(rewriteCols store (dropSensitive B).cols).2⟩ = some merged := by
  rw [procesar_core_eq] at h
  cases hm : mergeStep E ⟨(rewriteCols store (dropSensitive B).cols).2⟩ with
  | none => rw [hm] at h; simp at h
  | some df =>
    rw [hm] at h
    simp only [Option.map_some, Option.map, Option.some.injEq, Prod.mk.injEq] at h
    rw [h.1]

theorem dropSensitive_names (B : DataFrame) (c : String)
    (hc : c ∈ cols_eliminar) : ¬ c ∈ (dropSensitive B).names := by
  intro hmem
  rw [dropSensitive, DataFrame.names, List.mem_map] at hmem
  obtain ⟨p, hp, hpc⟩ := hmem
  rw [List.mem_filter] at hp
  subst hpc
  exact absurd hc (by simpa using hp.2)

/-! ### Lemmas about persistence of the mapping store -/

theorem dictInsert_append (m : MapTable) (k v : Value)
    (h : ¬ k ∈ m.map Prod.fst) : MapTable.insert m k v = m ++ [(k, v)] := by
  rw [MapTable.insert, MapTable.lookup_eq_none_of_not_mem m k h]
  rfl

theorem dictOfPairs_aux (m : MapTable) (acc : MapTable)
    (hdis : ∀ k ∈ m.map Prod.fst, ¬ k ∈ acc.map Prod.fst)
    (hnd : (m.map Prod.fst).Nodup) :
    m.foldl (fun a p => MapTable.insert a p.1 p.2) acc = acc ++ m := by
  induction m generalizing acc with
  | nil => simp
  | cons p m ih =>
    obtain ⟨k, v⟩ := p
    simp only [List.map_cons, List.nodup_cons] at hnd
    rw [List.foldl_cons, dictInsert_append acc k v (hdis k (by simp))]
    rw [ih (acc ++ [(k, v)]) ?_ hnd.2]
    · simp
    · intro k' hk'
      rw [List.map_append, List.mem_append]
      push_neg
      refine ⟨hdis k' (by simp [hk']), ?_⟩
      simp only [List.map_cons, List.map_nil, List.mem_singleton]
      intro he
      subst he
      exact hnd.1 hk'

theorem dictOfPairs_id (m : MapTable) (hnd : (m.map Prod.fst).Nodup) :
    dictOfPairs m = m := by
  rw [dictOfPairs, dictOfPairs_aux m [] (by simp) hnd]
  simp

theorem zip_fst_snd (l : List (Value × Value)) :
    List.zip (l.map Prod.fst) (l.map Prod.snd) = l := by
  induction l with
  | nil => rfl
  | cons p l ih => simp [List.zip, ih]

theorem append_real_ne_anon (g : String) : ¬ (g ++ "_real") = (g ++ "_anon") := by
  intro h
  have hd : (g ++ "_real").data = (g ++ "_anon").data := congrArg String.data h
  rw [String.data_append, String.data_append] at hd
  have h2 := List.append_cancel_left hd
  exact absurd h2 (by decide)

theorem sheetTable_save (g : String) (m : MapTable)
    (hnd : (m.map Prod.fst).Nodup) :
    sheetTable ⟨[(g ++ "_real", m.map Prod.fst),
                 (g ++ "_anon", m.map Prod.snd)]⟩ = m := by
  rw [sheetTable]
  have hreal : getColumn ⟨[(g ++ "_real", m.map Prod.fst),
      (g ++ "_anon", m.map Prod.snd)]⟩ (g ++ "_real") = some (m.map Prod.fst) := by
    rw [getColumn, List.find?_cons_of_pos _ (by simp)]
    rfl
  have hanon : getColumn ⟨[(g ++ "_real", m.map Prod.fst),
      (g ++ "_anon", m.map Prod.snd)]⟩ (g ++ "_anon") = some (m.map Prod.snd) := by
    rw [getColumn, List.find?_cons_of_neg _ (by simpa using append_real_ne_anon g),
      List.find?_cons_of_pos _ (by simp)]
    rfl
  simp only [List.getD_cons_zero, List.getD_cons_succ]
  rw [hreal, hanon]
  simp only [Option.getD_some]
  rw [zip_fst_snd, dictOfPairs_id m hnd]

theorem loadSheet_save (st : Store) (g : String) (m : MapTable)
    (hg : g = "Rut 1" ∨ g = "Rut 2" ∨ g = "ID SAP")
    (hnd : (m.map Prod.fst).Nodup) :
    loadSheet st (strTake ("Grupo_" ++ g) 31,
      ⟨[(g ++ "_real", m.map Prod.fst), (g ++ "_anon", m.map Prod.snd)]⟩) =
      Store.set st g m := by
  have key : canonicalKey (removeAll "Grupo_" (strTake ("Grupo_" ++ g) 31)) = g := by
    rcases hg with h | h | h <;> subst h <;> decide
  rw [loadSheet, if_pos (by simp), key, sheetTable_save _ m hnd]

theorem loadStore_save_aux (store : Store) (acc : Store)
    (hkeys : ∀ p ∈ store, p.1 = "Rut 1" ∨ p.1 = "Rut 2" ∨ p.1 = "ID SAP")
    (htab : ∀ p ∈ store, (p.2.map Prod.fst).Nodup)
    (hnd : (store.map Prod.fst).Nodup)
    (hdis : ∀ g ∈ store.map Prod.fst, ¬ g ∈ acc.map Prod.fst) :
    (saveStore store).foldl loadSheet acc = acc ++ store := by
  induction store generalizing acc with
  | nil => simp [saveStore]
  | cons p store ih =>
    obtain ⟨g, m⟩ := p
    simp only [List.map_cons, List.nodup_cons] at hnd
    rw [saveStore, List.map_cons, List.foldl_cons]
    rw [loadSheet_save acc g m (hkeys (g, m) (.head _)) (htab (g, m) (.head _))]
    rw [Store.set_append_of_not_mem acc g m (hdis g (by simp))]
    have hrest : List.foldl loadSheet (acc ++ [(g, m)])
        (store.map fun p => (strTake ("Grupo_" ++ p.1) 31,
          (⟨[(p.1 ++ "_real", p.2.map Prod.fst),
             (p.1 ++ "_anon", p.2.map Prod.snd)]⟩ : DataFrame))) =
        (acc ++ [(g, m)]) ++ store := by
      rw [show (store.map fun p => (strTake ("Grupo_" ++ p.1) 31,
          (⟨[(p.1 ++ "_real", p.2.map Prod.fst),
             (p.1 ++ "_anon", p.2.map Prod.snd)]⟩ : DataFrame))) =
          saveStore store from rfl]
      apply ih (acc ++ [(g, m)])
      · exact fun q hq => hkeys q (.tail _ hq)
      · exact fun q hq => htab q (.tail _ hq)
      · exact hnd.2
      · intro g' hg'
        rw [List.map_append, List.mem_append]
        push_neg
        refine ⟨hdis g' (by simp [hg']), ?_⟩
        simp only [List.map_cons, List.map_nil, List.mem_singleton]
        intro he
        subst he
        exact hnd.1 hg'
    rw [hrest]
    simp

theorem loadStore_saveStore (store : Store)
    (hkeys : ∀ p ∈ store, p.1 = "Rut 1" ∨ p.1 = "Rut 2" ∨ p.1 = "ID SAP")
    (htab : ∀ p ∈ store, (p.2.map Prod.fst).Nodup)
    (hnd : (store.map Prod.fst).Nodup) :
    loadStore (some (saveStore store)) = store := by
  rw [loadStore, loadStore_save_aux store [] hkeys htab hnd (by simp)]
  simp

/-! ### Remaining helper lemmas -/

theorem Store.mem_set (s : Store) (g : String) (m : MapTable)
    (q : String × MapTable) (hq : q ∈ Store.set s g m) :
    q ∈ s ∨ q = (g, m) := by
  rw [Store.set] at hq
  by_cases h : (Store.get? s g).isSome
  · rw [if_pos h, List.mem_map] at hq
    obtain ⟨p, hp, hpq⟩ := hq
    by_cases hpg : p.1 = g
    · rw [if_pos hpg] at hpq
      exact Or.inr hpq.symm
    · rw [if_neg hpg] at hpq
      exact Or.inl (hpq ▸ hp)
  · rw [if_neg h, List.mem_append] at hq
    rcases hq with h1 | h1
    · exact Or.inl h1
    · simp only [List.mem_singleton] at h1
      exact Or.inr h1

theorem Store.get?_isSome_of_mem_keys (s : Store) (g : String)
    (h : g ∈ s.map Prod.fst) : (Store.get? s g).isSome := by
  by_contra hcon
  have : Store.get? s g = none := by
    cases hx : Store.get? s g with
    | none => rfl
    | some t => rw [hx] at hcon; simp at hcon
  induction s with
  | nil => simp at h
  | cons p s ih =>
    by_cases hp : p.1 = g
    · rw [Store.get?, List.find?_cons_of_pos _ (by simpa using hp)] at this
      simp at this
    · rw [Store.get?, List.find?_cons_of_neg _ (by simpa using hp)] at this
      simp only [List.map_cons, List.mem_cons] at h
      exact ih (h.resolve_left fun he => hp he.symm) (by rw [Store.get?, this]; simp)
        this

theorem Store.get_keys_nodup (s : Store) (g : String)
    (htab : ∀ p ∈ s, (p.2.map Prod.fst).Nodup) :
    ((Store.get s g).map Prod.fst).Nodup := by
  rw [Store.get, Store.get?]
  cases hf : s.find? (fun p => p.1 = g) with
  | none => simp
  | some p => simpa using htab p (List.mem_of_find?_eq_some hf)

theorem Store.keys_set_nodup (s : Store) (g : String) (m : MapTable)
    (hnd : (s.map Prod.fst).Nodup) :
    ((Store.set s g m).map Prod.fst).Nodup := by
  rw [Store.keys_set]
  by_cases h : (Store.get? s g).isSome
  · rw [if_pos h]
    exact hnd
  · rw [if_neg h]
    refine List.Nodup.append hnd (List.nodup_singleton g) ?_
    intro a ha hag
    rw [List.mem_singleton] at hag
    subst hag
    exact h (Store.get?_isSome_of_mem_keys s a ha)

theorem rewriteCols_singleton (store : Store) (name : String)
    (cells : List Value) (g : String) (hg : groupOf name = some g) :
    rewriteCols store [(name, cells)] =
      (Store.set store g (extendTable (Store.get store g) (dropnaUnique cells)),
       [(name,
         mapColumn (extendTable (Store.get store g) (dropnaUnique cells))
           cells)]) := by
  simp [rewriteCols, hg]

theorem mem_of_getD (l : List Value) (j : Nat) (hj : j < l.length) (v : Value)
    (h : l.getD j .nan = v) : v ∈ l := by
  subst h
  rw [List.getD_eq_getElem l _ hj]
  exact List.getElem_mem hj

theorem word8hex_length (w : Nat) : (word8hex w).length = 8 := by
  simp [word8hex]

theorem sha256hexChars_length (msg : List Nat) :
    (sha256hexChars msg).length = 64 := by
  simp [sha256hexChars, word8hex_length]

/-! ### The claims -/

/-- C1.  Mapping consistency and stability: if the store's table for group
`G` already maps the real value `v` to token `t`, then rewriting any batch
whose column `i` belongs to group `G` turns every occurrence of `v` in that
column into exactly `t` (no new token is generated for it), and every entry
present in the store beforehand — any group, any key — is still looked up
unchanged afterwards: rewriting never reassigns or removes entries. -/
theorem C1_mapping_consistency_stability (store : Store)
    (cols : List (String × List Value)) (i : Nat) (hi : i < cols.length)
    (g : String) (v t : Value) (hv : ¬ v = Value.nan)
    (hg : groupOf (cols.getD i ("", [])).1 = some g)
    (ht : MapTable.lookup (Store.get store g) v = some t)
    (j : Nat) (hj : j < (cols.getD i ("", [])).2.length)
    (hcell : (cols.getD i ("", [])).2.getD j .nan = v) :
    ((rewriteCols store cols).2.getD i ("", [])).2.getD j .nan = t ∧
    ∀ (g' : String) (v' t' : Value),
      MapTable.lookup (Store.get store g') v' = some t' →
      MapTable.lookup (Store.get (rewriteCols store cols).1 g') v' = some t' :=
  ⟨rewriteCols_hit cols store i hi g v t hv hg ht j hj hcell,
   fun g' v' t' h' => rewriteCols_store_mono cols store g' v' t' h'⟩

theorem C1_witness :
    ((0 : Nat) < ([("Rut 1", [Value.vint 5])] :
        List (String × List Value)).length ∧
     groupOf "Rut 1" = some "Rut 1" ∧
     MapTable.lookup (Store.get [("Rut 1", [(Value.vint 5, Value.vstr "tok")])]
       "Rut 1") (Value.vint 5) = some (Value.vstr "tok")) ∧
    (((rewriteCols [("Rut 1", [(Value.vint 5, Value.vstr "tok")])]
        [("Rut 1", [Value.vint 5])]).2.getD 0 ("", [])).2.getD 0 .nan
      = Value.vstr "tok" ∧
     ∀ (g' : String) (v' t' : Value),
       MapTable.lookup (Store.get [("Rut 1", [(Value.vint 5, Value.vstr "tok")])]
         g') v' = some t' →
       MapTable.lookup (Store.get (rewriteCols
         [("Rut 1", [(Value.vint 5, Value.vstr "tok")])]
         [("Rut 1", [Value.vint 5])]).1 g') v' = some t') :=
  ⟨⟨by decide, by decide, by decide⟩,
   C1_mapping_consistency_stability
     [("Rut 1", [(Value.vint 5, Value.vstr "tok")])]
     [("Rut 1", [Value.vint 5])] 0 (by decide) "Rut 1"
     (Value.vint 5) (Value.vstr "tok") (by decide) (by decide) (by decide)
     0 (by decide) (by decide)⟩

/-- C4.  The anonymizer is a pure total deterministic function: for every
value `v`, `anonimizar_id v` is exactly the first 10 hexadecimal characters
of the SHA-256 digest of `v`'s string representation, its length is always
exactly 10, and two values with the same string coercion get the same
token.  Totality holds by construction: `anonimizar_id` is a total Lean
function, mirroring the Python function that raises on no input. -/
theorem C4_anonymizer_pure_total (v w : Value) :
    (anonimizar_id v).length = 10 ∧
    anonimizar_id v = ⟨(sha256hexChars (utf8Encode (pyStr v))).take 10⟩ ∧
    (pyStr v = pyStr w → anonimizar_id v = anonimizar_id w) := by
  refine ⟨?_, rfl, fun h => by rw [anonimizar_id, anonimizar_id, h]⟩
  show ((sha256hexChars (utf8Encode (pyStr v))).take 10).length = 10
  rw [List.length_take, sha256hexChars_length]
  decide

set_option maxRecDepth 1000000 in
theorem C4_witness :
    anonimizar_id (Value.vint 100) = "ad57366865" ∧
    (anonimizar_id (Value.vint 100)).length = 10 ∧
    (pyStr (Value.vint 100) = pyStr (Value.vint 100) →
      anonimizar_id (Value.vint 100) = anonimizar_id (Value.vint 100)) :=
  ⟨by decide,
   (C4_anonymizer_pure_total (Value.vint 100) (Value.vint 100)).1,
   (C4_anonymizer_pure_total (Value.vint 100) (Value.vint 100)).2.2⟩

/-- C7.  Mapping store load error behavior: loading when no persisted file
exists yields the empty store, and any sheet whose table has fewer than 2
columns is silently skipped — the load of a file containing it equals the
load of the same file without it, so its group is simply absent and no
error is raised. -/
theorem C7_load_error_behavior :
    loadStore none = [] ∧
    ∀ (pre post : SheetFile) (nm : String) (df : DataFrame),
      df.cols.length < 2 →
      loadStore (some (pre ++ (nm, df) :: post)) =
        loadStore (some (pre ++ post)) := by
  refine ⟨rfl, fun pre post nm df hlt => ?_⟩
  rw [loadStore, loadStore, List.foldl_append, List.foldl_append,
    List.foldl_cons]
  have : loadSheet (List.foldl loadSheet [] pre) (nm, df) =
      List.foldl loadSheet [] pre := by
    rw [loadSheet, if_neg (Nat.not_le.mpr hlt)]
  rw [this]

theorem C7_witness :
    (⟨[("solo_una", [Value.vint 1])]⟩ : DataFrame).cols.length < 2 ∧
    loadStore (some ([("Grupo_Rut 1",
        ⟨[("Rut 1_real", [Value.vint 5]), ("Rut 1_anon", [Value.vstr "x"])]⟩)] ++
      ("hoja_mala", ⟨[("solo_una", [Value.vint 1])]⟩) :: [])) =
      loadStore (some ([("Grupo_Rut 1",
        ⟨[("Rut 1_real", [Value.vint 5]), ("Rut 1_anon", [Value.vstr "x"])]⟩)] ++
        [])) :=
  ⟨by decide,
   C7_load_error_behavior.2
     [("Grupo_Rut 1",
       ⟨[("Rut 1_real", [Value.vint 5]), ("Rut 1_anon", [Value.vstr "x"])]⟩)]
     [] "hoja_mala" ⟨[("solo_una", [Value.vint 1])]⟩ (by decide)⟩

/-- C8.  Sheet-label truncation on save: the sheet persisted for the `i`-th
group of the store carries the label `("Grupo_" ++ group)[:31]`, whose
length never exceeds 31, and is exactly 31 whenever the untruncated label
is longer than 31 characters; no error is possible. -/
theorem C8_sheet_label_truncation (store : Store) (i : Nat)
    (hi : i < store.length) :
    ((saveStore store).getD i ("", ⟨[]⟩)).1 =
      strTake ("Grupo_" ++ (store.getD i ("", [])).1) 31 ∧
    (strTake ("Grupo_" ++ (store.getD i ("", [])).1) 31).length ≤ 31 ∧
    (31 < ("Grupo_" ++ (store.getD i ("", [])).1).length →
      (strTake ("Grupo_" ++ (store.getD i ("", [])).1) 31).length = 31) := by
  refine ⟨?_, ?_, ?_⟩
  · rw [saveStore, getD_map_lt _ store i ("", []) _ hi]
  · show (("Grupo_" ++ (store.getD i ("", [])).1).data.take 31).length ≤ 31
    rw [List.length_take]
    exact Nat.min_le_left _ _
  · intro h31
    show (("Grupo_" ++ (store.getD i ("", [])).1).data.take 31).length = 31
    rw [List.length_take]
    exact Nat.min_eq_left (Nat.le_of_lt h31)

theorem C8_witness :
    ((0 : Nat) < ([("una_etiqueta_de_grupo_extremadamente_larga", [])] :
      Store).length) ∧
    ((saveStore [("una_etiqueta_de_grupo_extremadamente_larga", [])]).getD 0
        ("", ⟨[]⟩)).1 =
      strTake ("Grupo_" ++ "una_etiqueta_de_grupo_extremadamente_larga") 31 ∧
    (strTake ("Grupo_" ++ "una_etiqueta_de_grupo_extremadamente_larga")
      31).length ≤ 31 ∧
    (31 < ("Grupo_" ++ "una_etiqueta_de_grupo_extremadamente_larga").length →
      (strTake ("Grupo_" ++ "una_etiqueta_de_grupo_extremadamente_larga")
        31).length = 31) := by
  refine ⟨by decide, ?_⟩
  have h := C8_sheet_label_truncation
    [("una_etiqueta_de_grupo_extremadamente_larga", [])] 0 (by decide)
  exact h

/-- C2, counterexample.  The claim says a column present in the
consolidated schema but absent from the (post-normalization) batch is
tolerated: the merge succeeds with missing values.  On the code it does
not: line 76 (`df_nuevo[df_existente.columns]`) raises a `KeyError`.
Concretely, with a consolidated frame having column `"A"` and a batch
having only column `"B"`, the pipeline yields `none` (an error), so no
merged frame — with missing values or otherwise — exists. -/
theorem C2_counterexample :
    ("A" ∈ (⟨[("A", [Value.vint 1])]⟩ : DataFrame).names ∧
     ¬ "A" ∈ (dropSensitive ⟨[("B", [Value.vint 2])]⟩).names) ∧
    procesar_core ⟨[("A", [Value.vint 1])]⟩ ⟨[("B", [Value.vint 2])]⟩ [] =
      none :=
  ⟨⟨by decide, by decide⟩, by decide⟩

/-- C2, amended.  When a column is present in the consolidated dataset's
schema but absent from the post-normalization batch, the merge does not
succeed: the column selection fails (pandas `KeyError`, modelled as
`none`) and nothing is appended. -/
theorem C2_missing_column_is_error (E B : DataFrame) (store : Store)
    (c : String) (hc : c ∈ E.names)
    (hB : ¬ c ∈ (dropSensitive B).names) :
    procesar_core E B store = none := by
  rw [procesar_core_eq]
  have hnames : (DataFrame.mk (rewriteCols store (dropSensitive B).cols).2).names
      = (dropSensitive B).names := rewriteCols_names _ _
  rw [mergeStep, selectCols,
    selectColsList_eq_none _ _ c hc (by rw [hnames]; exact hB)]
  rfl

theorem C2_witness :
    ("X" ∈ (⟨[("X", [Value.vint 7])]⟩ : DataFrame).names ∧
     ¬ "X" ∈ (dropSensitive ⟨[("Y", [Value.vint 8])]⟩).names) ∧
    procesar_core ⟨[("X", [Value.vint 7])]⟩ ⟨[("Y", [Value.vint 8])]⟩ [] =
      none :=
  ⟨⟨by decide, by decide⟩,
   C2_missing_column_is_error ⟨[("X", [Value.vint 7])]⟩
     ⟨[("Y", [Value.vint 8])]⟩ [] "X" (by decide) (by decide)⟩

/-- C3, counterexample.  The claim quantifies over every existing dataset
and every batch and asserts the merged dataset exists with row count
`existing_rows + batch_rows`.  When a column of the existing dataset is
missing from the batch the merge step yields no dataset at all (`none`),
refuting the unconditional claim at this concrete input. -/
theorem C3_counterexample :
    mergeStep ⟨[("A", [Value.vint 1])]⟩ ⟨[("C", [Value.vint 2])]⟩ = none := by
  decide

/-- C3, amended.  Provided every column of the existing dataset is present
in the batch, the merge succeeds and: the merged dataset has exactly the
existing dataset's columns in the existing order (batch columns outside
that schema are dropped), each merged column is the existing column's
cells followed by the batch's cells for that column (existing rows first,
batch rows after, both in original order), and the merged row count is
`existing_rows + batch_rows`. -/
theorem C3_schema_intersection_append (E B : DataFrame) (m n : Nat)
    (hsub : ∀ c ∈ E.names, c ∈ B.names) (hE : E.Rect m) (hB : B.Rect n) :
    ∃ merged, mergeStep E B = some merged ∧
      merged.names = E.names ∧
      merged.Rect (m + n) ∧
      (∀ i, i < E.cols.length →
        merged.cols.getD i ("", []) =
          ((E.cols.getD i ("", [])).1,
           (E.cols.getD i ("", [])).2 ++
             (getColumn B (E.cols.getD i ("", [])).1).getD [])) ∧
      (∀ c, ¬ c ∈ E.names → ¬ c ∈ merged.names) := by
  have hsel := selectColsList_of_sub B E.names hsub
  have hnameslen : E.names.length = E.cols.length := List.length_map _ _
  have hsellen :
      (E.names.map fun nm => (nm, (getColumn B nm).getD [])).length =
        E.cols.length := by
    rw [List.length_map]
    exact hnameslen
  have hle : E.cols.length ≤
      (E.names.map fun nm => (nm, (getColumn B nm).getD [])).length :=
    le_of_eq hsellen.symm
  refine ⟨concatDF E ⟨E.names.map fun nm => (nm, (getColumn B nm).getD [])⟩,
    ?_, ?_, ?_, ?_, ?_⟩
  · rw [mergeStep, selectCols, hsel]
    rfl
  · show (List.zipWith _ E.cols _).map Prod.fst = E.names
    exact map_fst_zipWithCat E.cols _ hle
  · intro p hp
    rw [show (concatDF E
        ⟨E.names.map fun nm => (nm, (getColumn B nm).getD [])⟩).cols =
      List.zipWith (fun p q => (p.1, p.2 ++ q.2)) E.cols
        (E.names.map fun nm => (nm, (getColumn B nm).getD [])) from rfl] at hp
    rw [List.mem_iff_getElem] at hp
    obtain ⟨i, hilen, hip⟩ := hp
    rw [List.length_zipWith, hsellen, Nat.min_self] at hilen
    have hgd := zipWithCat_getD E.cols
      (E.names.map fun nm => (nm, (getColumn B nm).getD [])) i hilen hle
    rw [List.getD_eq_getElem _ _ (by
      rw [List.length_zipWith, hsellen, Nat.min_self]; exact hilen), hip] at hgd
    have hmapgd := getD_map_lt (fun nm => (nm, (getColumn B nm).getD []))
      E.names i "" ("", ([] : List Value)) (by rw [hnameslen]; exact hilen)
    have hnm : E.names.getD i "" = (E.cols.getD i ("", [])).1 :=
      getD_map_lt Prod.fst E.cols i ("", []) "" hilen
    have hEmem : E.cols.getD i ("", []) ∈ E.cols := by
      rw [List.getD_eq_getElem _ _ hilen]
      exact List.getElem_mem hilen
    have hElen : (E.cols.getD i ("", [])).2.length = m := hE _ hEmem
    have hnmB : (E.cols.getD i ("", [])).1 ∈ B.names := by
      apply hsub
      rw [DataFrame.names, List.mem_map]
      exact ⟨_, hEmem, rfl⟩
    obtain ⟨bc, hbc⟩ := Option.isSome_iff_exists.mp
      ((getColumn_isSome_iff B _).mpr hnmB)
    have hbclen : bc.length = n := hB _ (getColumn_mem B _ bc hbc)
    rw [hgd]
    show ((E.cols.getD i ("", [])).2 ++
      ((E.names.map fun nm => (nm, (getColumn B nm).getD [])).getD i
        ("", [])).2).length = m + n
    rw [hmapgd, hnm]
    simp only [hbc, Option.getD_some]
    rw [List.length_append, hElen, hbclen]
  · intro i hilen
    have hgd := zipWithCat_getD E.cols
      (E.names.map fun nm => (nm, (getColumn B nm).getD [])) i hilen hle
    have hmapgd := getD_map_lt (fun nm => (nm, (getColumn B nm).getD []))
      E.names i "" ("", ([] : List Value)) (by rw [hnameslen]; exact hilen)
    have hnm : E.names.getD i "" = (E.cols.getD i ("", [])).1 :=
      getD_map_lt Prod.fst E.cols i ("", []) "" hilen
    show (List.zipWith (fun p q => (p.1, p.2 ++ q.2)) E.cols
      (E.names.map fun nm => (nm, (getColumn B nm).getD []))).getD i ("", []) = _
    rw [hgd, hmapgd, hnm]
  · intro c hc hmem
    rw [show (concatDF E
        ⟨E.names.map fun nm => (nm, (getColumn B nm).getD [])⟩).names =
      (List.zipWith (fun p q => (p.1, p.2 ++ q.2)) E.cols
        (E.names.map fun nm => (nm, (getColumn B nm).getD []))).map Prod.fst
      from rfl] at hmem
    rw [map_fst_zipWithCat E.cols _ hle] at hmem
    exact hc hmem

theorem C3_witness :
    ((∀ c ∈ (⟨[("A", [Value.vint 1])]⟩ : DataFrame).names,
        c ∈ (⟨[("A", [Value.vint 3]), ("B", [Value.vint 4])]⟩ :
          DataFrame).names) ∧
     (⟨[("A", [Value.vint 1])]⟩ : DataFrame).Rect 1 ∧
     (⟨[("A", [Value.vint 3]), ("B", [Value.vint 4])]⟩ : DataFrame).Rect 1) ∧
    ∃ merged,
      mergeStep ⟨[("A", [Value.vint 1])]⟩
        ⟨[("A", [Value.vint 3]), ("B", [Value.vint 4])]⟩ = some merged ∧
      merged.names = (⟨[("A", [Value.vint 1])]⟩ : DataFrame).names ∧
      merged.Rect (1 + 1) ∧
      (∀ i, i < (⟨[("A", [Value.vint 1])]⟩ : DataFrame).cols.length →
        merged.cols.getD i ("", []) =
          (((⟨[("A", [Value.vint 1])]⟩ : DataFrame).cols.getD i ("", [])).1,
           ((⟨[("A", [Value.vint 1])]⟩ : DataFrame).cols.getD i ("", [])).2 ++
             (getColumn ⟨[("A", [Value.vint 3]), ("B", [Value.vint 4])]⟩
               ((⟨[("A", [Value.vint 1])]⟩ :
                 DataFrame).cols.getD i ("", [])).1).getD [])) ∧
      (∀ c, ¬ c ∈ (⟨[("A", [Value.vint 1])]⟩ : DataFrame).names →
        ¬ c ∈ merged.names) :=
  ⟨⟨by decide, by decide, by decide⟩,
   C3_schema_intersection_append ⟨[("A", [Value.vint 1])]⟩
     ⟨[("A", [Value.vint 3]), ("B", [Value.vint 4])]⟩ 1 1
     (by decide) (by decide) (by decide)⟩

/-- C6.  Sensitive-column removal with a frame condition: each of the six
disallowed name columns present in a batch is removed by the normalizer and
never appears in the merged output of a successful run, regardless of the
consolidated schema; absent columns are ignored without error, and every
other column passes through the normalizer with its name and values
unchanged. -/
theorem C6_sensitive_column_removal (E B : DataFrame) (store : Store) :
    (∀ c ∈ cols_eliminar, ¬ c ∈ (dropSensitive B).names) ∧
    (∀ p ∈ B.cols, ¬ p.1 ∈ cols_eliminar → p ∈ (dropSensitive B).cols) ∧
    (∀ p ∈ (dropSensitive B).cols, p ∈ B.cols ∧ ¬ p.1 ∈ cols_eliminar) ∧
    (∀ merged store', procesar_core E B store = some (merged, store') →
      ∀ c ∈ cols_eliminar, ¬ c ∈ merged.names) := by
  refine ⟨fun c hc => dropSensitive_names B c hc, ?_, ?_, ?_⟩
  · intro p hp hnp
    show p ∈ B.cols.filter fun q => ¬ q.1 ∈ cols_eliminar
    rw [List.mem_filter]
    exact ⟨hp, by simpa using hnp⟩
  · intro p hp
    have hp2 : p ∈ B.cols.filter fun q => ¬ q.1 ∈ cols_eliminar := hp
    rw [List.mem_filter] at hp2
    exact ⟨hp2.1, by simpa using hp2.2⟩
  · intro merged store' hrun c hc hcm
    have hm := procesar_core_some_merge E B store merged store' hrun
    have hnames := mergeStep_some_names _ _ _ hm
    have hsub := mergeStep_some_sub _ _ _ hm
    rw [hnames] at hcm
    have hc2 := hsub c hcm
    rw [show (DataFrame.mk (rewriteCols store (dropSensitive B).cols).2).names =
        (dropSensitive B).names from rewriteCols_names _ _] at hc2
    exact dropSensitive_names B c hc hc2

theorem C6_witness :
    (∀ c ∈ cols_eliminar,
      ¬ c ∈ (dropSensitive ⟨[("Monto", [Value.vint 9]),
        ("BE_NOMB_ASEG", [Value.vstr "p"])]⟩).names) ∧
    (∀ p ∈ (⟨[("Monto", [Value.vint 9]),
        ("BE_NOMB_ASEG", [Value.vstr "p"])]⟩ : DataFrame).cols,
      ¬ p.1 ∈ cols_eliminar →
      p ∈ (dropSensitive ⟨[("Monto", [Value.vint 9]),
        ("BE_NOMB_ASEG", [Value.vstr "p"])]⟩).cols) ∧
    (∀ p ∈ (dropSensitive ⟨[("Monto", [Value.vint 9]),
        ("BE_NOMB_ASEG", [Value.vstr "p"])]⟩).cols,
      p ∈ (⟨[("Monto", [Value.vint 9]),
        ("BE_NOMB_ASEG", [Value.vstr "p"])]⟩ : DataFrame).cols ∧
      ¬ p.1 ∈ cols_eliminar) ∧
    (∀ merged store',
      procesar_core ⟨[("Monto", [Value.vint 1])]⟩
        ⟨[("Monto", [Value.vint 9]), ("BE_NOMB_ASEG", [Value.vstr "p"])]⟩ [] =
        some (merged, store') →
      ∀ c ∈ cols_eliminar, ¬ c ∈ merged.names) :=
  C6_sensitive_column_removal ⟨[("Monto", [Value.vint 1])]⟩
    ⟨[("Monto", [Value.vint 9]), ("BE_NOMB_ASEG", [Value.vstr "p"])]⟩ []

/-- C9.  Last sheet wins on load: when the persisted mapping file contains
several sheets whose labels normalize to the same canonical group, the
loaded store's table for that group is the one built from the last such
(well-formed, at least 2 columns) sheet alone; the entries contributed by
earlier sheets of the group are replaced, not merged. -/
theorem C9_last_sheet_wins (pre post : SheetFile) (nm : String)
    (df : DataFrame) (g : String)
    (hcols : 2 ≤ df.cols.length)
    (hg : canonicalKey (removeAll "Grupo_" nm) = g)
    (hpost : ∀ p ∈ post, 2 ≤ p.2.cols.length →
      ¬ canonicalKey (removeAll "Grupo_" p.1) = g) :
    Store.get? (loadStore (some (pre ++ (nm, df) :: post))) g =
      some (sheetTable df) := by
  rw [loadStore, List.foldl_append, List.foldl_cons]
  have hstep : loadSheet (List.foldl loadSheet [] pre) (nm, df) =
      Store.set (List.foldl loadSheet [] pre) g (sheetTable df) := by
    rw [loadSheet, if_pos hcols, hg]
  rw [hstep]
  have main : ∀ (ps : SheetFile) (st : Store),
      (∀ p ∈ ps, 2 ≤ p.2.cols.length →
        ¬ canonicalKey (removeAll "Grupo_" p.1) = g) →
      Store.get? st g = some (sheetTable df) →
      Store.get? (List.foldl loadSheet st ps) g = some (sheetTable df) := by
    intro ps
    induction ps with
    | nil => exact fun st _ h2 => h2
    | cons q ps ih =>
      intro st hq h2
      rw [List.foldl_cons]
      refine ih _ (fun p hp => hq p (.tail _ hp)) ?_
      rw [loadSheet]
      by_cases hlen : 2 ≤ q.2.cols.length
      · rw [if_pos hlen,
          Store.get?_set_ne _ _ _ _ fun he => hq q (.head _) hlen he.symm]
        exact h2
      · rw [if_neg hlen]
        exact h2
  exact main post _ hpost (Store.get?_set_self _ _ _)

theorem C9_witness :
    ((2 : Nat) ≤ (⟨[("x", [Value.vint 2]), ("y", [Value.vstr "b"])]⟩ :
        DataFrame).cols.length ∧
     canonicalKey (removeAll "Grupo_" "Grupo_Rut beneficiario") = "Rut 1") ∧
    Store.get? (loadStore (some ([("Grupo_Rut 1",
        ⟨[("Rut 1_real", [Value.vint 1]), ("Rut 1_anon", [Value.vstr "a"])]⟩)] ++
      ("Grupo_Rut beneficiario",
        (⟨[("x", [Value.vint 2]), ("y", [Value.vstr "b"])]⟩ : DataFrame)) ::
      []))) "Rut 1" =
      some (sheetTable ⟨[("x", [Value.vint 2]), ("y", [Value.vstr "b"])]⟩) :=
  ⟨⟨by decide, by decide⟩,
   C9_last_sheet_wins
     [("Grupo_Rut 1",
       ⟨[("Rut 1_real", [Value.vint 1]), ("Rut 1_anon", [Value.vstr "a"])]⟩)]
     [] "Grupo_Rut beneficiario"
     ⟨[("x", [Value.vint 2]), ("y", [Value.vstr "b"])]⟩ "Rut 1"
     (by decide) (by decide) (fun p hp => absurd hp (List.not_mem_nil p))⟩

/-- C10.  Persistence round-trip: for every mapping store whose group keys
are exactly the canonical names "Rut 1", "Rut 2", "ID SAP" (and whose
tables satisfy the dict invariant of distinct keys), saving the store and
loading the result yields the same store: the `Grupo_` prefix is stripped,
the remaining name alias-matches back to the same canonical group, and the
key/token pairs are read back positionally from the two columns. -/
theorem C10_persistence_roundtrip (store : Store)
    (hperm : (store.map Prod.fst).Perm ["Rut 1", "Rut 2", "ID SAP"])
    (htab : ∀ p ∈ store, (p.2.map Prod.fst).Nodup) :
    loadStore (some (saveStore store)) = store := by
  refine loadStore_saveStore store ?_ htab ?_
  · intro p hp
    have h1 : p.1 ∈ ["Rut 1", "Rut 2", "ID SAP"] :=
      hperm.mem_iff.mp (List.mem_map_of_mem Prod.fst hp)
    simpa using h1
  · exact hperm.nodup_iff.mpr (by decide)

theorem C10_witness :
    ((([("Rut 1", [(Value.vint 1, Value.vstr "a")]), ("Rut 2", []),
        ("ID SAP", [(Value.vstr "x", Value.vstr "b")])] :
      Store).map Prod.fst).Perm ["Rut 1", "Rut 2", "ID SAP"] ∧
     ∀ p ∈ ([("Rut 1", [(Value.vint 1, Value.vstr "a")]), ("Rut 2", []),
        ("ID SAP", [(Value.vstr "x", Value.vstr "b")])] : Store),
       (p.2.map Prod.fst).Nodup) ∧
    loadStore (some (saveStore
      [("Rut 1", [(Value.vint 1, Value.vstr "a")]), ("Rut 2", []),
       ("ID SAP", [(Value.vstr "x", Value.vstr "b")])])) =
      [("Rut 1", [(Value.vint 1, Value.vstr "a")]), ("Rut 2", []),
       ("ID SAP", [(Value.vstr "x", Value.vstr "b")])] :=
  ⟨⟨List.Perm.refl _, by decide⟩,
   C10_persistence_roundtrip
     [("Rut 1", [(Value.vint 1, Value.vstr "a")]), ("Rut 2", []),
      ("ID SAP", [(Value.vstr "x", Value.vstr "b")])]
     (List.Perm.refl _) (by decide)⟩

/-- C5.  Grouping correctness across aliases: anonymizing the real value
`v` under a column named "Rut beneficiario" in one run and under a column
named "Rut 1" in a later run — with the mapping store saved to the mapping
file after the first run and loaded back before the second — produces the
same token in both output columns, because both column names resolve to
the canonical group "Rut 1" and read the same mapping table.  The initial
store is any store with the canonical group keys and the dict invariant
(as produced by loading a saved store). -/
theorem C5_alias_grouping_across_runs (store0 : Store)
    (hkeys : ∀ p ∈ store0, p.1 = "Rut 1" ∨ p.1 = "Rut 2" ∨ p.1 = "ID SAP")
    (htab : ∀ p ∈ store0, (p.2.map Prod.fst).Nodup)
    (hnd : (store0.map Prod.fst).Nodup)
    (v : Value) (hv : ¬ v = Value.nan)
    (cells1 cells2 : List Value) (j1 j2 : Nat)
    (hj1 : j1 < cells1.length) (hc1 : cells1.getD j1 .nan = v)
    (hj2 : j2 < cells2.length) (hc2 : cells2.getD j2 .nan = v) :
    ((rewriteCols (loadStore (some (saveStore
          (rewriteCols store0 [("Rut beneficiario", cells1)]).1)))
        [("Rut 1", cells2)]).2.getD 0 ("", [])).2.getD j2 .nan =
      ((rewriteCols store0 [("Rut beneficiario", cells1)]).2.getD 0
        ("", [])).2.getD j1 .nan := by
  have hg1 : groupOf "Rut beneficiario" = some "Rut 1" := by decide
  have hg2 : groupOf "Rut 1" = some "Rut 1" := by decide
  have hm1v : MapTable.lookup
      (extendTable (Store.get store0 "Rut 1") (dropnaUnique cells1)) v =
      some ((MapTable.lookup (Store.get store0 "Rut 1") v).getD
        (.vstr (anonimizar_id v))) :=
    extendTable_lookup_of_mem _ _ v
      ((mem_dropnaUnique cells1 v).mpr ⟨mem_of_getD cells1 j1 hj1 v hc1, hv⟩)
  have hstore1 : (rewriteCols store0 [("Rut beneficiario", cells1)]).1 =
      Store.set store0 "Rut 1"
        (extendTable (Store.get store0 "Rut 1") (dropnaUnique cells1)) := by
    rw [rewriteCols_singleton store0 _ cells1 "Rut 1" hg1]
  have hout1 : ((rewriteCols store0 [("Rut beneficiario", cells1)]).2.getD 0
      ("", [])).2.getD j1 .nan =
      (MapTable.lookup (Store.get store0 "Rut 1") v).getD
        (.vstr (anonimizar_id v)) := by
    rw [rewriteCols_singleton store0 _ cells1 "Rut 1" hg1]
    show (mapColumn (extendTable (Store.get store0 "Rut 1")
      (dropnaUnique cells1)) cells1).getD j1 .nan = _
    rw [mapColumn_getD _ cells1 j1 hj1, hc1, if_neg hv, hm1v]
    rfl
  have hrt : loadStore (some (saveStore
      (rewriteCols store0 [("Rut beneficiario", cells1)]).1)) =
      (rewriteCols store0 [("Rut beneficiario", cells1)]).1 := by
    rw [hstore1]
    refine loadStore_saveStore _ ?_ ?_ ?_
    · intro p hp
      rcases Store.mem_set _ _ _ p hp with h1 | h1
      · exact hkeys p h1
      · rw [h1]
        exact Or.inl rfl
    · intro p hp
      rcases Store.mem_set _ _ _ p hp with h1 | h1
      · exact htab p h1
      · rw [h1]
        exact extendTable_keys_nodup _ _
          (Store.get_keys_nodup store0 "Rut 1" htab)
    · exact Store.keys_set_nodup store0 _ _ hnd
  rw [hrt, hstore1, rewriteCols_singleton _ _ cells2 "Rut 1" hg2]
  show (mapColumn (extendTable (Store.get (Store.set store0 "Rut 1"
      (extendTable (Store.get store0 "Rut 1") (dropnaUnique cells1)))
      "Rut 1") (dropnaUnique cells2)) cells2).getD j2 .nan = _
  rw [mapColumn_getD _ cells2 j2 hj2, hc2, if_neg hv, Store.get_set_self]
  rw [extendTable_lookup_mono (dropnaUnique cells2) _ v _ hm1v, hout1]
  rfl

theorem C5_witness :
    ((∀ p ∈ ([] : Store),
        p.1 = "Rut 1" ∨ p.1 = "Rut 2" ∨ p.1 = "ID SAP") ∧
     (∀ p ∈ ([] : Store), (p.2.map Prod.fst).Nodup) ∧
     (0 : Nat) < [Value.vint 100].length) ∧
    ((rewriteCols (loadStore (some (saveStore
          (rewriteCols [] [("Rut beneficiario", [Value.vint 100])]).1)))
        [("Rut 1", [Value.vint 100])]).2.getD 0 ("", [])).2.getD 0 .nan =
      ((rewriteCols [] [("Rut beneficiario", [Value.vint 100])]).2.getD 0
        ("", [])).2.getD 0 .nan :=
  ⟨⟨fun p hp => absurd hp (List.not_mem_nil p),
    fun p hp => absurd hp (List.not_mem_nil p), by decide⟩,
   C5_alias_grouping_across_runs []
     (fun p hp => absurd hp (List.not_mem_nil p))
     (fun p hp => absurd hp (List.not_mem_nil p)) (by decide)
     (Value.vint 100) (by decide) [Value.vint 100] [Value.vint 100] 0 0
     (by decide) (by decide) (by decide) (by decide)⟩

end Bonif
